import Mathlib

/-!
Verification development for the StressFlight Analytics core:
the archive sample extractor (`services/samsungHealthService.ts`),
the travel-window deriver and correlation filter
(`App.tsx`, `handleGenerateAnalysis`), and the chart series builder
(`components/DataVisualization.tsx`).

Modelling conventions:
* JSON/JavaScript runtime values are modelled by the inductive `JVal`
  (JSON numbers are taken as integers: all numbers the code handles are
  epoch milliseconds and integer stress scores).
* Epoch-millisecond timestamps are `Int`.
* The evaluating environment's local timezone is modelled as a fixed
  offset `off` (milliseconds to add to UTC to get local time); every
  local-calendar computation (`Date.setHours`, minute truncation,
  `toLocaleTimeString`) is parametrised by it.
* `toLocaleTimeString([], {hour, minute})` renders the local minute of
  day; it is injective on minute-of-day, so labels are modelled as the
  minute-of-day number `((t + off) / 60000) % 1440`.
* `JSON.parse` either throws or yields a value, so a zip member's parsed
  content is `Option JVal` (`none` = malformed JSON).
* `Array.prototype.sort` with a consistent comparator is the stable sort
  `jsSort`; for an inconsistent comparator (non-numeric timestamps) the
  ECMAScript result is implementation-defined and `jsSort` is one
  admissible realisation.
-/

/-- Model of a JavaScript value as produced by `JSON.parse`, plus
`undefined` for the result of reading an absent property. -/
inductive JVal where
  | undefined : JVal
  | null : JVal
  | bool (b : Bool) : JVal
  | num (n : Int) : JVal
  | str (s : String) : JVal
  | arr (xs : List JVal) : JVal
  | obj (fields : List (String × JVal)) : JVal

/-- JavaScript truthiness of a `JVal` (`undefined`, `null`, `false`,
`0` and `""` are falsy; every object/array is truthy). -/
def JVal.truthy : JVal → Bool
  | .undefined => false
  | .null => false
  | .bool b => b
  | .num n => n != 0
  | .str s => s != ""
  | .arr _ => true
  | .obj _ => true

/-- Is this value an array (`Array.isArray`)? -/
def JVal.isArr : JVal → Bool
  | .arr _ => true
  | _ => false

/-- Is this value a JSON number? -/
def JVal.isNum : JVal → Bool
  | .num _ => true
  | _ => false

/-- Is this value `undefined` (`v !== undefined` is `!v.isUndefined`)? -/
def JVal.isUndefined : JVal → Bool
  | .undefined => true
  | _ => false

/-- Property read `v[k]`: `undefined` when absent or when `v` is not an
object.  (Reading a property of `null`/`undefined` throws in JS; the
only such read in the extractor is inside its `try`, and the outcome —
the member contributes no record — coincides with reading `undefined`.) -/
def JVal.getField (v : JVal) (k : String) : JVal :=
  match v with
  | .obj fields =>
    match fields.find? (fun f => f.1 == k) with
    | some f => f.2
    | none => .undefined
  | _ => .undefined

/-- `a || b` on JavaScript values. -/
def jsOr (a b : JVal) : JVal :=
  if a.truthy then a else b

/-- The sequence of values `for (const x of v)` iterates over:
array elements, a string's characters (as 1-character strings), and
`none` when `v` is not iterable (the loop throws `TypeError`). -/
def JVal.elems : JVal → Option (List JVal)
  | .arr xs => some xs
  | .str s => some (s.data.map (fun c => .str (String.mk [c])))
  | _ => none

/-- Character-list prefix test, used to model `String.prototype.includes`. -/
def isPrefixChars : List Char → List Char → Bool
  | [], _ => true
  | _ :: _, [] => false
  | a :: as, b :: bs => a == b && isPrefixChars as bs

/-- Does `sub` occur as a contiguous run inside `hay`? -/
def hasSubChars (sub : List Char) : List Char → Bool
  | [] => sub.isEmpty
  | c :: rest => isPrefixChars sub (c :: rest) || hasSubChars sub rest

/-- `s.includes(sub)` for strings. -/
def containsStr (s sub : String) : Bool :=
  hasSubChars sub.data s.data

/-- ASCII `toLowerCase` (event names and zip paths are ASCII). -/
def lowerStr (s : String) : String :=
  String.mk (s.data.map Char.toLower)

/-- `s.endsWith(suffix)`. -/
def endsWithStr (s suffix : String) : Bool :=
  isPrefixChars suffix.data.reverse s.data.reverse

/-! ## Archive Sample Extractor (`services/samsungHealthService.ts`) -/

/-- Runtime value of one extracted health record, as pushed by
`parseSamsungHealthZip`: `timestamp = point.end_time`,
`value = point.score`, `type = 'stress'`.  The fields are kept as raw
`JVal`s because the code performs no numeric validation. -/
structure Sample where
  timestamp : JVal
  value : JVal
  type : String

/-- One member of the uploaded zip: its path and its parsed JSON content
(`none` models `JSON.parse` throwing on malformed content). -/
structure ZipEntry where
  name : String
  content : Option JVal

def MAX_FILES_TO_PROCESS : Nat := 500

/-- Does a zip path qualify for processing
(`endsWith('.binning_data.json') && includes('com.samsung.shealth.stress')`)? -/
def qualifies (path : String) : Bool :=
  endsWithStr path ".binning_data.json" && containsStr path "com.samsung.shealth.stress"

/-- `Array.isArray(data) ? data : data.data || data.binning_data || []`. -/
def selectContainer (data : JVal) : JVal :=
  match data with
  | .arr _ => data
  | _ => jsOr (data.getField "data") (jsOr (data.getField "binning_data") (.arr []))

/-- Records contributed by one successfully parsed member: iterate the
selected container (nothing if it is not iterable — the `for..of` throw
is caught by the member's `try`), keep points whose `score` and
`end_time` are both defined. -/
def pointsOf (data : JVal) : List Sample :=
  match (selectContainer data).elems with
  | none => []
  | some pts =>
    pts.filterMap (fun point =>
      let value := point.getField "score"
      let timestamp := point.getField "end_time"
      if !value.isUndefined && !timestamp.isUndefined then
        some ⟨timestamp, value, "stress"⟩
      else
        none)

/-- Records contributed by one zip member; a malformed member (parse
failure) is caught, warned about and skipped. -/
def processEntry (e : ZipEntry) : List Sample :=
  match e.content with
  | none => []
  | some data => pointsOf data

/-- The comparator `(a, b) => a.timestamp - b.timestamp` as a boolean
"goes-no-later-than" relation: on numeric timestamps it is `≤`; when a
timestamp is not a number the ECMAScript sort order is
implementation-defined and the relation defaults to `true` (stable sort
then keeps the relative order, one admissible outcome). -/
def tsLe (a b : Sample) : Bool :=
  match a.timestamp, b.timestamp with
  | .num x, .num y => decide (x ≤ y)
  | _, _ => true

/-- Stable insertion of `a` into `l`: `a` is placed before the first
element `b` with `le a b`. -/
def jsInsert (le : α → α → Bool) (a : α) : List α → List α
  | [] => [a]
  | b :: l => if le a b then a :: b :: l else b :: jsInsert le a l

/-- Stable sort (the ECMAScript `Array.prototype.sort` result for a
consistent comparator). -/
def jsSort (le : α → α → Bool) : List α → List α
  | [] => []
  | a :: l => jsInsert le a (jsSort le l)

/-- `parseSamsungHealthZip`: select qualifying members, process the
first 500, concatenate their records, sort chronologically. -/
def parseSamsungHealthZip (zip : List ZipEntry) : List Sample :=
  let filesToProcess := zip.filter (fun e => qualifies e.name)
  let healthData := (filesToProcess.take MAX_FILES_TO_PROCESS).flatMap processEntry
  jsSort tsLe healthData

/-! ## App-level pipeline (`App.tsx`, `handleGenerateAnalysis`)

Downstream of the extractor the data is typed: timestamps and values
are numbers.  `HealthDataPoint` is the TypeScript interface
`{timestamp: number, value: number, type: 'stress'}`. -/

structure HealthDataPoint where
  timestamp : Int
  value : Int
  type : String
deriving DecidableEq, Repr

structure FlightEvent where
  event : String
  timestamp : Int
  details : String
deriving DecidableEq, Repr

def STRESS_THRESHOLD : Int := 80

/-- `{timestamp, value}` projection sent to the insight collaborator. -/
structure StressPair where
  timestamp : Int
  value : Int
deriving DecidableEq, Repr

def msPerDay : Int := 86400000

/-- `Math.min(...xs)` over a non-empty spread (`0` is a placeholder for
the empty case, which the code never reaches: the handler requires
flight data). -/
def listMin : List Int → Int
  | [] => 0
  | t :: ts => ts.foldl min t

/-- `Math.max(...xs)` over a non-empty spread. -/
def listMax : List Int → Int
  | [] => 0
  | t :: ts => ts.foldl max t

def travelStart (events : List FlightEvent) : Int :=
  listMin (events.map (fun e => e.timestamp))

def travelEnd (events : List FlightEvent) : Int :=
  listMax (events.map (fun e => e.timestamp))

/-- `new Date(t).setHours(0,0,0,0)` in a fixed-offset local timezone:
the instant of local midnight of `t`'s local calendar day
(`t - ((t + off) mod 86400000)`). -/
def setHoursZero (off t : Int) : Int :=
  t - (t + off) % msPerDay

/-- `new Date(t).setHours(23,59,59,999)`: last millisecond of `t`'s
local calendar day. -/
def setHoursEnd (off t : Int) : Int :=
  setHoursZero off t + (msPerDay - 1)

def travelDayStart (off : Int) (events : List FlightEvent) : Int :=
  setHoursZero off (travelStart events)

def travelDayEnd (off : Int) (events : List FlightEvent) : Int :=
  setHoursEnd off (travelEnd events)

/-- The Correlation Filter (`App.tsx` lines 77–83): window filter, then
stress/threshold filter, then projection to `{timestamp, value}`. -/
def highStressPeriods (healthData : List HealthDataPoint) (dayStart dayEnd : Int) :
    List StressPair :=
  ((healthData.filter (fun d => decide (dayStart ≤ d.timestamp) && decide (d.timestamp ≤ dayEnd))).filter
      (fun d => d.type == "stress" && decide (STRESS_THRESHOLD ≤ d.value))).map
    (fun d => ⟨d.timestamp, d.value⟩)

/-! ## Chart series builder (`components/DataVisualization.tsx`) -/

/-- The `timeRange` state (`{start, end}`; `stop` stands for the source
field `end`, a Lean keyword), initialised to `{start: 0, end: 0}`. -/
structure TimeRange where
  start : Int
  stop : Int
deriving DecidableEq, Repr

def THREE_HOURS_MS : Int := 10800000

/-- The effect seeding `timeRange` from flight events (±3 h buffer);
it fires only for a non-empty event list, so the `{0,0}` sentinel
persists otherwise. -/
def initTimeRange (flightEvents : List FlightEvent) (prev : TimeRange) : TimeRange :=
  if flightEvents.isEmpty then prev
  else
    ⟨listMin (flightEvents.map (fun e => e.timestamp)) - THREE_HOURS_MS,
     listMax (flightEvents.map (fun e => e.timestamp)) + THREE_HOURS_MS⟩

/-- `filteredHealthData`: when either bound is falsy (`0`) the filter is
bypassed and the whole series is returned. -/
def filteredHealthData (healthData : List HealthDataPoint) (tr : TimeRange) :
    List HealthDataPoint :=
  if tr.start == 0 || tr.stop == 0 then healthData
  else healthData.filter (fun d => decide (tr.start ≤ d.timestamp) && decide (d.timestamp ≤ tr.stop))

/-- The local-minute identity of a timestamp: the `minuteKey` ISO string
is injective in this number (minutes since epoch, local frame). -/
def minuteKey (off t : Int) : Int :=
  (t + off) / 60000

/-- `timeToLabel` / `toLocaleTimeString([], {hour, minute})`: the local
minute of day (the `HH:MM` string is injective on this number). -/
def timeToLabel (off t : Int) : Int :=
  (minuteKey off t) % 1440

/-- One chart bucket: local-minute key and optional stress value
(`ChartDataPoint` before label conversion). -/
abbrev Bucket := Int × Option Int

/-- `dataMap.set(minuteKey, {time: minuteKey})` when the key is absent:
`Map` insertion order is modelled by appending. -/
def addBucket (m : List Bucket) (key : Int) : List Bucket :=
  if m.any (fun e => e.1 == key) then m else m ++ [(key, none)]

/-- `existingPoint.stress = point.value`: overwrite the stress value of
the bucket with this key. -/
def setStress (m : List Bucket) (key : Int) (v : Int) : List Bucket :=
  m.map (fun e => if e.1 == key then (e.1, some v) else e)

/-- One iteration of the `filteredHealthData.forEach` body. -/
def stepBucket (off : Int) (m : List Bucket) (point : HealthDataPoint) : List Bucket :=
  let key := minuteKey off point.timestamp
  let m' := addBucket m key
  if point.type == "stress" then setStress m' key point.value else m'

/-- The `dataMap` contents in insertion order after the `forEach`. -/
def buildBuckets (off : Int) (l : List HealthDataPoint) : List Bucket :=
  l.foldl (stepBucket off) []

/-- `sortedData`: buckets sorted ascending by underlying minute
timestamp (the comparator re-parses the ISO minute key). -/
def chartBuckets (off : Int) (healthData : List HealthDataPoint) (tr : TimeRange) :
    List Bucket :=
  jsSort (fun a b => decide (a.1 ≤ b.1)) (buildBuckets off (filteredHealthData healthData tr))

/-- `chartData`: the sorted buckets with the key converted to the lossy
`HH:MM` display label. -/
def chartData (off : Int) (healthData : List HealthDataPoint) (tr : TimeRange) :
    List Bucket :=
  (chartBuckets off healthData tr).map (fun e => (e.1 % 1440, e.2))

/-! ### Phase-interval derivation (`referenceAreas`) -/

/-- One entry of the `areas` array: `x1`/`x2` are display labels
(minute-of-day), `label` the caption, `fill` the CSS fill. -/
structure RefArea where
  x1 : Int
  x2 : Int
  label : String
  fill : String
deriving DecidableEq, Repr

/-- Mutable state of the `sortedEvents.forEach` scan. -/
structure AreasState where
  areas : List RefArea
  currentFlight : Option Int
  currentTransit : Option Int
  flightCount : Nat
deriving DecidableEq, Repr

def flightFill : String := "rgba(59, 130, 246, 0.15)"

def transitFill : String := "rgba(249, 115, 22, 0.15)"

/-- One iteration of the `referenceAreas` scan (the `else if` chain). -/
def stepArea (off : Int) (st : AreasState) (event : FlightEvent) : AreasState :=
  let lowerEvent := lowerStr event.event
  if containsStr lowerEvent "takeoff" && st.currentFlight.isNone then
    { st with currentFlight := some event.timestamp }
  else if containsStr lowerEvent "landing" && st.currentFlight.isSome then
    match st.currentFlight with
    | some s0 =>
      { st with
        flightCount := st.flightCount + 1,
        areas := st.areas ++
          [⟨timeToLabel off s0, timeToLabel off event.timestamp,
            "In Flight " ++ toString (st.flightCount + 1), flightFill⟩],
        currentFlight := none }
    | none => st
  else if containsStr lowerEvent "transit start" && st.currentTransit.isNone then
    { st with currentTransit := some event.timestamp }
  else if containsStr lowerEvent "transit end" && st.currentTransit.isSome then
    match st.currentTransit with
    | some s0 =>
      { st with
        areas := st.areas ++
          [⟨timeToLabel off s0, timeToLabel off event.timestamp, "Transit", transitFill⟩],
        currentTransit := none }
    | none => st
  else st

def initAreasState : AreasState := ⟨[], none, none, 0⟩

/-- State after scanning a (chronologically sorted) event list. -/
def areasFold (off : Int) (events : List FlightEvent) : AreasState :=
  events.foldl (stepArea off) initAreasState

/-- The emitted intervals before window filtering: sort events by
timestamp (stably), then run the paired state machine. -/
def deriveAreas (off : Int) (flightEvents : List FlightEvent) : List RefArea :=
  (areasFold off (jsSort (fun a b => decide (a.timestamp ≤ b.timestamp)) flightEvents)).areas

/-- The final `areas.filter`: re-resolve each endpoint label to the
first event bearing it, drop the area when a lookup fails, keep it when
the resolved start is at-or-after `timeRange.start` and the resolved
end at-or-before `timeRange.end`. -/
def referenceAreas (off : Int) (flightEvents : List FlightEvent) (tr : TimeRange) :
    List RefArea :=
  (deriveAreas off flightEvents).filter (fun area =>
    match flightEvents.find? (fun e => timeToLabel off e.timestamp == area.x1),
        flightEvents.find? (fun e => timeToLabel off e.timestamp == area.x2) with
    | some startEvent, some endEvent =>
      decide (tr.start ≤ startEvent.timestamp) && decide (endEvent.timestamp ≤ tr.stop)
    | _, _ => false)

/-! ## Helper lemmas -/

theorem foldl_min_le_init (ts : List Int) : ∀ t : Int, ts.foldl min t ≤ t := by
  induction ts with
  | nil => intro t; exact le_refl t
  | cons a ts ih =>
    intro t
    calc (a :: ts).foldl min t = ts.foldl min (min t a) := rfl
      _ ≤ min t a := ih (min t a)
      _ ≤ t := min_le_left t a

theorem foldl_min_le_mem (ts : List Int) : ∀ t x : Int, x ∈ ts → ts.foldl min t ≤ x := by
  induction ts with
  | nil => intro t x hx; cases hx
  | cons a ts ih =>
    intro t x hx
    rcases List.mem_cons.mp hx with h | h
    · subst h
      calc (x :: ts).foldl min t = ts.foldl min (min t x) := rfl
        _ ≤ min t x := foldl_min_le_init ts (min t x)
        _ ≤ x := min_le_right t x
    · exact ih (min t a) x h

theorem foldl_min_eq_or_mem (ts : List Int) : ∀ t : Int, ts.foldl min t = t ∨ ts.foldl min t ∈ ts := by
  induction ts with
  | nil => intro t; exact Or.inl rfl
  | cons a ts ih =>
    intro t
    rcases ih (min t a) with h | h
    · rcases min_choice t a with hc | hc
      · exact Or.inl (by rw [show (a :: ts).foldl min t = ts.foldl min (min t a) from rfl, h, hc])
      · exact Or.inr (List.mem_cons.mpr (Or.inl (by rw [show (a :: ts).foldl min t = ts.foldl min (min t a) from rfl, h, hc])))
    · exact Or.inr (List.mem_cons.mpr (Or.inr h))

theorem foldl_max_init_le (ts : List Int) : ∀ t : Int, t ≤ ts.foldl max t := by
  induction ts with
  | nil => intro t; exact le_refl t
  | cons a ts ih =>
    intro t
    calc t ≤ max t a := le_max_left t a
      _ ≤ ts.foldl max (max t a) := ih (max t a)
      _ = (a :: ts).foldl max t := rfl

theorem foldl_max_mem_le (ts : List Int) : ∀ t x : Int, x ∈ ts → x ≤ ts.foldl max t := by
  induction ts with
  | nil => intro t x hx; cases hx
  | cons a ts ih =>
    intro t x hx
    rcases List.mem_cons.mp hx with h | h
    · subst h
      calc x ≤ max t x := le_max_right t x
        _ ≤ ts.foldl max (max t x) := foldl_max_init_le ts (max t x)
        _ = (x :: ts).foldl max t := rfl
    · exact ih (max t a) x h

theorem foldl_max_eq_or_mem (ts : List Int) : ∀ t : Int, ts.foldl max t = t ∨ ts.foldl max t ∈ ts := by
  induction ts with
  | nil => intro t; exact Or.inl rfl
  | cons a ts ih =>
    intro t
    rcases ih (max t a) with h | h
    · rcases max_choice t a with hc | hc
      · exact Or.inl (by rw [show (a :: ts).foldl max t = ts.foldl max (max t a) from rfl, h, hc])
      · exact Or.inr (List.mem_cons.mpr (Or.inl (by rw [show (a :: ts).foldl max t = ts.foldl max (max t a) from rfl, h, hc])))
    · exact Or.inr (List.mem_cons.mpr (Or.inr h))

theorem listMin_le (l : List Int) (x : Int) (hx : x ∈ l) : listMin l ≤ x := by
  cases l with
  | nil => cases hx
  | cons a ts =>
    rcases List.mem_cons.mp hx with h | h
    · subst h; exact foldl_min_le_init ts x
    · exact foldl_min_le_mem ts a x h

theorem le_listMax (l : List Int) (x : Int) (hx : x ∈ l) : x ≤ listMax l := by
  cases l with
  | nil => cases hx
  | cons a ts =>
    rcases List.mem_cons.mp hx with h | h
    · subst h; exact foldl_max_init_le ts x
    · exact foldl_max_mem_le ts a x h

theorem listMin_mem (l : List Int) (h : l ≠ []) : listMin l ∈ l := by
  cases l with
  | nil => exact absurd rfl h
  | cons a ts =>
    rcases foldl_min_eq_or_mem ts a with h1 | h1
    · exact List.mem_cons.mpr (Or.inl (by simpa [listMin] using h1))
    · exact List.mem_cons.mpr (Or.inr (by simpa [listMin] using h1))

theorem listMax_mem (l : List Int) (h : l ≠ []) : listMax l ∈ l := by
  cases l with
  | nil => exact absurd rfl h
  | cons a ts =>
    rcases foldl_max_eq_or_mem ts a with h1 | h1
    · exact List.mem_cons.mpr (Or.inl (by simpa [listMax] using h1))
    · exact List.mem_cons.mpr (Or.inr (by simpa [listMax] using h1))

/-! ## C1: the Correlation Filter -/

/-- C1: for every health-sample sequence and travel-day window, the
Correlation Filter's output is exactly the input subsequence whose
timestamp lies in `[dayStart, dayEnd]`, whose kind is stress and whose
value is `≥ 80`, projected to `{timestamp, value}` pairs in input
order; consequently no returned pair has value `< 80` or a timestamp
outside the window. -/
theorem highStressPeriods_spec (healthData : List HealthDataPoint) (dayStart dayEnd : Int) :
    highStressPeriods healthData dayStart dayEnd =
      (healthData.filter (fun d =>
        decide (dayStart ≤ d.timestamp) && decide (d.timestamp ≤ dayEnd) &&
        (d.type == "stress") && decide (STRESS_THRESHOLD ≤ d.value))).map
        (fun d => ⟨d.timestamp, d.value⟩) ∧
    ∀ p ∈ highStressPeriods healthData dayStart dayEnd,
      STRESS_THRESHOLD ≤ p.value ∧ dayStart ≤ p.timestamp ∧ p.timestamp ≤ dayEnd := by
  constructor
  · unfold highStressPeriods
    rw [List.filter_filter]
    congr 1
    apply List.filter_congr
    intro d _
    cases h1 : decide (dayStart ≤ d.timestamp) <;>
      cases h2 : decide (d.timestamp ≤ dayEnd) <;>
        cases h3 : d.type == "stress" <;>
          cases h4 : decide (STRESS_THRESHOLD ≤ d.value) <;> rfl
  · intro p hp
    unfold highStressPeriods at hp
    rcases List.mem_map.mp hp with ⟨d, hd, hdp⟩
    rcases List.mem_filter.mp hd with ⟨hd1, hd2⟩
    rcases List.mem_filter.mp hd1 with ⟨_, hd3⟩
    subst hdp
    simp only [Bool.and_eq_true, decide_eq_true_eq] at hd2 hd3
    exact ⟨hd2.2, hd3.1, hd3.2⟩

theorem highStressPeriods_spec_witness :
    STRESS_THRESHOLD ≤ (90 : Int) ∧ (1000 : Int) ≤ 1500 ∧ (1500 : Int) ≤ 2000 :=
  (highStressPeriods_spec
      [⟨1500, 90, "stress"⟩, ⟨1500, 70, "stress"⟩, ⟨5000, 95, "stress"⟩] 1000 2000).2
    ⟨1500, 90⟩ (by decide)

/-! ## C2: the Travel-Window Deriver -/

/-- C2: for every non-empty flight-event list (and any fixed local
offset), `travelStart`/`travelEnd` are the minimum/maximum event
timestamps (bounds attained by some event), `travelDayStart` is the
local midnight instant of `travelStart`'s local calendar day (it is at
or before `travelStart`, less than a day earlier, falls on a local
midnight, and lies on the same local day), and `travelDayEnd` is the
last millisecond (23:59:59.999) of `travelEnd`'s local calendar day —
which for events spanning two local days yields midnight of the first
day and 23:59:59.999 of the second. -/
theorem travelWindow_spec (off : Int) (events : List FlightEvent) (h : events ≠ []) :
    (∀ e ∈ events, travelStart events ≤ e.timestamp ∧ e.timestamp ≤ travelEnd events) ∧
    travelStart events ∈ events.map (fun e => e.timestamp) ∧
    travelEnd events ∈ events.map (fun e => e.timestamp) ∧
    travelDayStart off events ≤ travelStart events ∧
    travelStart events - travelDayStart off events < msPerDay ∧
    (travelDayStart off events + off) % msPerDay = 0 ∧
    (travelDayStart off events + off) / msPerDay = (travelStart events + off) / msPerDay ∧
    travelEnd events ≤ travelDayEnd off events ∧
    travelDayEnd off events - travelEnd events < msPerDay ∧
    (travelDayEnd off events + off + 1) % msPerDay = 0 ∧
    (travelDayEnd off events + off) / msPerDay = (travelEnd events + off) / msPerDay := by
  have hmap : events.map (fun e => e.timestamp) ≠ [] := by
    intro hc
    exact h (List.map_eq_nil_iff.mp hc)
  refine ⟨?_, ?_, ?_, ?_, ?_, ?_, ?_, ?_, ?_, ?_, ?_⟩
  · intro e he
    constructor
    · exact listMin_le _ e.timestamp (List.mem_map_of_mem _ he)
    · exact le_listMax _ e.timestamp (List.mem_map_of_mem _ he)
  · exact listMin_mem _ hmap
  · exact listMax_mem _ hmap
  · simp only [travelDayStart, setHoursZero, msPerDay]; omega
  · simp only [travelDayStart, setHoursZero, msPerDay]; omega
  · simp only [travelDayStart, setHoursZero, msPerDay]; omega
  · simp only [travelDayStart, setHoursZero, msPerDay]; omega
  · simp only [travelDayEnd, setHoursEnd, setHoursZero, msPerDay]; omega
  · simp only [travelDayEnd, setHoursEnd, setHoursZero, msPerDay]; omega
  · simp only [travelDayEnd, setHoursEnd, setHoursZero, msPerDay]; omega
  · simp only [travelDayEnd, setHoursEnd, setHoursZero, msPerDay]; omega

theorem travelWindow_spec_witness :
    travelDayStart 0 [⟨"Takeoff", 84600000, ""⟩, ⟨"Landing", 91800000, ""⟩] ≤
      travelStart [⟨"Takeoff", 84600000, ""⟩, ⟨"Landing", 91800000, ""⟩] :=
  (travelWindow_spec 0 [⟨"Takeoff", 84600000, ""⟩, ⟨"Landing", 91800000, ""⟩]
      (List.cons_ne_nil _ _)).2.2.2.1

/-! ## C10: the chart's sample filter and its zero sentinel -/

/-- C10: while either `timeRange` bound is the `0` sentinel the chart's
sample filter returns the full health series unfiltered; only when both
bounds are nonzero does it restrict to `start ≤ timestamp ≤ end`.  The
seeding effect leaves the sentinel in place for an empty flight-event
list and otherwise sets the window to the events' span ±3 hours. -/
theorem filteredHealthData_spec (healthData : List HealthDataPoint) (tr : TimeRange) :
    (tr.start = 0 ∨ tr.stop = 0 → filteredHealthData healthData tr = healthData) ∧
    (tr.start ≠ 0 → tr.stop ≠ 0 → filteredHealthData healthData tr =
      healthData.filter (fun d =>
        decide (tr.start ≤ d.timestamp) && decide (d.timestamp ≤ tr.stop))) ∧
    (∀ prev : TimeRange, initTimeRange [] prev = prev) ∧
    (∀ (prev : TimeRange) (evs : List FlightEvent), evs ≠ [] →
      initTimeRange evs prev =
        ⟨listMin (evs.map (fun e => e.timestamp)) - THREE_HOURS_MS,
         listMax (evs.map (fun e => e.timestamp)) + THREE_HOURS_MS⟩) := by
  refine ⟨?_, ?_, ?_, ?_⟩
  · intro hz
    unfold filteredHealthData
    rcases hz with hz | hz <;> simp [hz]
  · intro h1 h2
    unfold filteredHealthData
    simp [h1, h2]
  · intro prev
    rfl
  · intro prev evs hevs
    unfold initTimeRange
    simp [List.isEmpty_iff, hevs]

theorem filteredHealthData_spec_witness :
    filteredHealthData [⟨500, 10, "stress"⟩] ⟨0, 99⟩ = [⟨500, 10, "stress"⟩] :=
  (filteredHealthData_spec [⟨500, 10, "stress"⟩] ⟨0, 99⟩).1 (Or.inl rfl)

/-! ## C4 and C9: phase-interval derivation -/

theorem jsInsert_cons_of_le (le : α → α → Bool) (a b : α) (l : List α) (h : le a b = true) :
    jsInsert le a (b :: l) = a :: b :: l := by
  simp [jsInsert, h]

theorem jsSort_eq_self (le : α → α → Bool) :
    ∀ l : List α, List.Chain' (fun a b => le a b = true) l → jsSort le l = l
  | [], _ => rfl
  | [a], _ => rfl
  | a :: b :: l, h => by
    rcases List.chain'_cons.mp h with ⟨hab, htail⟩
    have ih := jsSort_eq_self le (b :: l) htail
    calc jsSort le (a :: b :: l) = jsInsert le a (jsSort le (b :: l)) := rfl
      _ = jsInsert le a (b :: l) := by rw [ih]
      _ = a :: b :: l := jsInsert_cons_of_le le a b l hab

/-- C4: on the event list `[Takeoff@T1, Landing@T2, TransitStart@T2,
TransitEnd@T3, Takeoff@T3, Landing@T4]` the derivation emits exactly a
flight interval `[T1,T2]` with ordinal 1, a transit interval `[T2,T3]`
and a flight interval `[T3,T4]` with ordinal 2 (endpoints stored as
display labels); moreover an event whose lowered name contains
"takeoff" opens a flight exactly when none is open, and one containing
"landing" closes the open flight and emits the interval. -/
theorem phaseIntervals_scenario (off T1 T2 T3 T4 : Int)
    (h12 : T1 < T2) (h23 : T2 < T3) (h34 : T3 < T4) :
    deriveAreas off [⟨"Takeoff", T1, ""⟩, ⟨"Landing", T2, ""⟩, ⟨"Transit Start", T2, ""⟩,
        ⟨"Transit End", T3, ""⟩, ⟨"Takeoff", T3, ""⟩, ⟨"Landing", T4, ""⟩] =
      [⟨timeToLabel off T1, timeToLabel off T2, "In Flight 1", flightFill⟩,
       ⟨timeToLabel off T2, timeToLabel off T3, "Transit", transitFill⟩,
       ⟨timeToLabel off T3, timeToLabel off T4, "In Flight 2", flightFill⟩] ∧
    (∀ (st : AreasState) (e : FlightEvent),
      containsStr (lowerStr e.event) "takeoff" = true → st.currentFlight = none →
      stepArea off st e = { st with currentFlight := some e.timestamp }) ∧
    (∀ (st : AreasState) (e : FlightEvent) (s0 : Int),
      containsStr (lowerStr e.event) "landing" = true → st.currentFlight = some s0 →
      stepArea off st e =
        { st with
          flightCount := st.flightCount + 1,
          areas := st.areas ++
            [⟨timeToLabel off s0, timeToLabel off e.timestamp,
              "In Flight " ++ toString (st.flightCount + 1), flightFill⟩],
          currentFlight := none }) := by
  refine ⟨?_, ?_, ?_⟩
  · have hsort : jsSort (fun a b => decide (a.timestamp ≤ b.timestamp))
        ([⟨"Takeoff", T1, ""⟩, ⟨"Landing", T2, ""⟩, ⟨"Transit Start", T2, ""⟩,
          ⟨"Transit End", T3, ""⟩, ⟨"Takeoff", T3, ""⟩, ⟨"Landing", T4, ""⟩] :
            List FlightEvent) =
        [⟨"Takeoff", T1, ""⟩, ⟨"Landing", T2, ""⟩, ⟨"Transit Start", T2, ""⟩,
          ⟨"Transit End", T3, ""⟩, ⟨"Takeoff", T3, ""⟩, ⟨"Landing", T4, ""⟩] := by
      apply jsSort_eq_self
      simp only [List.chain'_cons, List.chain'_singleton, and_true, decide_eq_true_eq]
      refine ⟨?_, ?_, ?_, ?_, ?_⟩ <;> omega
    unfold deriveAreas areasFold
    rw [hsort]
    have c1 : containsStr (lowerStr "Takeoff") "takeoff" = true := by decide
    have c2 : containsStr (lowerStr "Takeoff") "landing" = false := by decide
    have c3 : containsStr (lowerStr "Takeoff") "transit start" = false := by decide
    have c4 : containsStr (lowerStr "Takeoff") "transit end" = false := by decide
    have c5 : containsStr (lowerStr "Landing") "takeoff" = false := by decide
    have c6 : containsStr (lowerStr "Landing") "landing" = true := by decide
    have c7 : containsStr (lowerStr "Landing") "transit start" = false := by decide
    have c8 : containsStr (lowerStr "Landing") "transit end" = false := by decide
    have c9 : containsStr (lowerStr "Transit Start") "takeoff" = false := by decide
    have c10 : containsStr (lowerStr "Transit Start") "landing" = false := by decide
    have c11 : containsStr (lowerStr "Transit Start") "transit start" = true := by decide
    have c12 : containsStr (lowerStr "Transit Start") "transit end" = false := by decide
    have c13 : containsStr (lowerStr "Transit End") "takeoff" = false := by decide
    have c14 : containsStr (lowerStr "Transit End") "landing" = false := by decide
    have c15 : containsStr (lowerStr "Transit End") "transit start" = false := by decide
    have c16 : containsStr (lowerStr "Transit End") "transit end" = true := by decide
    simp [List.foldl, stepArea, initAreasState, c1, c2, c3, c4, c5, c6, c7, c8, c9, c10, c11, c12, c13, c14, c15, c16]
    exact And.intro rfl rfl
  · intro st e htk hfl
    unfold stepArea
    simp [htk, hfl]
  · intro st e s0 hld hfl
    unfold stepArea
    simp [hld, hfl]

theorem phaseIntervals_scenario_witness :
    deriveAreas 0 [⟨"Takeoff", 60000, ""⟩, ⟨"Landing", 120000, ""⟩,
        ⟨"Transit Start", 120000, ""⟩, ⟨"Transit End", 180000, ""⟩,
        ⟨"Takeoff", 180000, ""⟩, ⟨"Landing", 240000, ""⟩] =
      [⟨timeToLabel 0 60000, timeToLabel 0 120000, "In Flight 1", flightFill⟩,
       ⟨timeToLabel 0 120000, timeToLabel 0 180000, "Transit", transitFill⟩,
       ⟨timeToLabel 0 180000, timeToLabel 0 240000, "In Flight 2", flightFill⟩] :=
  (phaseIntervals_scenario 0 60000 120000 180000 240000
      (by decide) (by decide) (by decide)).1

/-- C9: a "landing" event reaching the scan while no flight is open
leaves the scan state (and the emitted intervals) entirely unchanged —
inserting such an event anywhere into the scanned sequence changes
nothing — and an event that merely opens a flight or a transit emits no
interval (so an open never closed contributes nothing). -/
theorem phaseIntervals_unmatched (off : Int) :
    (∀ (st : AreasState) (e : FlightEvent),
      containsStr (lowerStr e.event) "landing" = true →
      containsStr (lowerStr e.event) "takeoff" = false →
      containsStr (lowerStr e.event) "transit start" = false →
      containsStr (lowerStr e.event) "transit end" = false →
      st.currentFlight = none →
      stepArea off st e = st) ∧
    (∀ (pre post : List FlightEvent) (e : FlightEvent),
      containsStr (lowerStr e.event) "landing" = true →
      containsStr (lowerStr e.event) "takeoff" = false →
      containsStr (lowerStr e.event) "transit start" = false →
      containsStr (lowerStr e.event) "transit end" = false →
      (pre.foldl (stepArea off) initAreasState).currentFlight = none →
      (pre ++ e :: post).foldl (stepArea off) initAreasState =
        (pre ++ post).foldl (stepArea off) initAreasState) ∧
    (∀ (st : AreasState) (e : FlightEvent),
      containsStr (lowerStr e.event) "takeoff" = true → st.currentFlight = none →
      (stepArea off st e).areas = st.areas) ∧
    (∀ (st : AreasState) (e : FlightEvent),
      containsStr (lowerStr e.event) "transit start" = true →
      containsStr (lowerStr e.event) "takeoff" = false →
      containsStr (lowerStr e.event) "landing" = false →
      st.currentTransit = none →
      (stepArea off st e).areas = st.areas) := by
  have hstep : ∀ (st : AreasState) (e : FlightEvent),
      containsStr (lowerStr e.event) "landing" = true →
      containsStr (lowerStr e.event) "takeoff" = false →
      containsStr (lowerStr e.event) "transit start" = false →
      containsStr (lowerStr e.event) "transit end" = false →
      st.currentFlight = none →
      stepArea off st e = st := by
    intro st e h1 h2 h3 h4 h5
    unfold stepArea
    simp [h1, h2, h3, h4, h5]
  refine ⟨hstep, ?_, ?_, ?_⟩
  · intro pre post e h1 h2 h3 h4 h5
    rw [List.foldl_append, List.foldl_append, List.foldl_cons,
      hstep (pre.foldl (stepArea off) initAreasState) e h1 h2 h3 h4 h5]
  · intro st e h1 h2
    unfold stepArea
    simp [h1, h2]
  · intro st e h1 h2 h3 h4
    unfold stepArea
    simp [h1, h2, h3, h4]

theorem phaseIntervals_unmatched_witness :
    stepArea 0 initAreasState ⟨"Landing", 5, ""⟩ = initAreasState :=
  (phaseIntervals_unmatched 0).1 initAreasState ⟨"Landing", 5, ""⟩
    (by decide) (by decide) (by decide) (by decide) rfl

/-! ## C7: window filtering of derived intervals -/

/-- C7 (amended): an interval is kept for display iff both label
lookups resolve (first event in input order whose display label equals
the stored endpoint label) and the resolved start event's timestamp is
at-or-after the window start while the resolved end event's timestamp
is at-or-before the window end.  (The code does not check the resolved
start against the window end nor the resolved end against the window
start.) -/
theorem referenceAreas_filter_amended (off : Int) (flightEvents : List FlightEvent)
    (tr : TimeRange) (area : RefArea) :
    area ∈ referenceAreas off flightEvents tr ↔
      area ∈ deriveAreas off flightEvents ∧
      ∃ startEvent endEvent : FlightEvent,
        flightEvents.find? (fun e => timeToLabel off e.timestamp == area.x1) = some startEvent ∧
        flightEvents.find? (fun e => timeToLabel off e.timestamp == area.x2) = some endEvent ∧
        tr.start ≤ startEvent.timestamp ∧ endEvent.timestamp ≤ tr.stop := by
  unfold referenceAreas
  rw [List.mem_filter]
  constructor
  · rintro ⟨hmem, hcond⟩
    refine ⟨hmem, ?_⟩
    cases h1 : flightEvents.find? (fun e => timeToLabel off e.timestamp == area.x1) with
    | none => rw [h1] at hcond; cases h2 : flightEvents.find? (fun e => timeToLabel off e.timestamp == area.x2) <;> rw [h2] at hcond <;> simp at hcond
    | some se =>
      cases h2 : flightEvents.find? (fun e => timeToLabel off e.timestamp == area.x2) with
      | none => rw [h1, h2] at hcond; simp at hcond
      | some ee =>
        rw [h1, h2] at hcond
        simp only [Bool.and_eq_true, decide_eq_true_eq] at hcond
        exact ⟨se, ee, rfl, rfl, hcond.1, hcond.2⟩
  · rintro ⟨hmem, se, ee, h1, h2, h3, h4⟩
    refine ⟨hmem, ?_⟩
    rw [h1, h2]
    simp only [Bool.and_eq_true, decide_eq_true_eq]
    exact ⟨h3, h4⟩

theorem referenceAreas_filter_amended_witness :
    (⟨2, 1, "In Flight 1", flightFill⟩ : RefArea) ∈
      referenceAreas 0 [⟨"Other", 60000, ""⟩, ⟨"Takeoff", 120000, ""⟩,
        ⟨"Landing", 86460000, ""⟩] ⟨120000, 86460000⟩ :=
  (referenceAreas_filter_amended 0
      [⟨"Other", 60000, ""⟩, ⟨"Takeoff", 120000, ""⟩, ⟨"Landing", 86460000, ""⟩]
      ⟨120000, 86460000⟩ ⟨2, 1, "In Flight 1", flightFill⟩).mpr
    ⟨by decide, ⟨"Takeoff", 120000, ""⟩, ⟨"Other", 60000, ""⟩, by decide, by decide,
      by decide, by decide⟩

/-- C7 (counterexample): with events `Other@60000`, `Takeoff@120000`,
`Landing@86460000` (the landing exactly 24 h after `Other`, so both
bear display label `1`) and window `[120000, 86460000]`, the flight
interval is kept although the event its end label re-resolves to
(`Other@60000`, the first with label `1`) lies before the window start
— refuting "kept iff both re-resolved events lie within the window". -/
theorem referenceAreas_filter_cex :
    referenceAreas 0 [⟨"Other", 60000, ""⟩, ⟨"Takeoff", 120000, ""⟩,
        ⟨"Landing", 86460000, ""⟩] ⟨120000, 86460000⟩ =
      [⟨2, 1, "In Flight 1", flightFill⟩] ∧
    ([⟨"Other", 60000, ""⟩, ⟨"Takeoff", 120000, ""⟩, ⟨"Landing", 86460000, ""⟩] :
        List FlightEvent).find? (fun e => timeToLabel 0 e.timestamp == 1) =
      some ⟨"Other", 60000, ""⟩ ∧
    ¬((120000 : Int) ≤ 60000 ∧ (60000 : Int) ≤ 86460000) := by
  refine ⟨by decide, by decide, ?_⟩
  intro h
  exact absurd h.1 (by decide)

/-! ## C6: record-container selection -/

/-- Modelled from the spec: the spec's container-selection rule, which
takes the first of (the value itself, the `"data"` field, the
`"binning_data"` field) that is an array, else treats the member as
empty.  Stated here only to compare against the code's
`selectContainer`. -/
def specSelectContainer (data : JVal) : JVal :=
  if data.isArr then data
  else if (data.getField "data").isArr then data.getField "data"
  else if (data.getField "binning_data").isArr then data.getField "binning_data"
  else .arr []

/-- Modelled from the spec: record extraction using the spec's
container-selection rule (record handling itself as in the code). -/
def specPointsOf (data : JVal) : List Sample :=
  match (specSelectContainer data).elems with
  | none => []
  | some pts =>
    pts.filterMap (fun point =>
      let value := point.getField "score"
      let timestamp := point.getField "end_time"
      if !value.isUndefined && !timestamp.isUndefined then
        some ⟨timestamp, value, "stress"⟩
      else
        none)

/-- C6 (counterexample): a member whose `"data"` field is a (truthy)
plain object and whose `"binning_data"` field is an array holding a
valid record.  The spec's priority rule selects the `binning_data`
array and yields the record; the code selects the truthy non-array
`"data"` object, the `for..of` throws, and the member contributes no
records — refuting "use the first that is an array-like sequence". -/
theorem selectContainer_truthy_cex :
    pointsOf (.obj [("data", .obj [("x", .num 1)]),
        ("binning_data", .arr [.obj [("score", .num 85), ("end_time", .num 1700000000000)]])]) =
      [] ∧
    specPointsOf (.obj [("data", .obj [("x", .num 1)]),
        ("binning_data", .arr [.obj [("score", .num 85), ("end_time", .num 1700000000000)]])]) =
      [⟨.num 1700000000000, .num 85, "stress"⟩] :=
  And.intro rfl rfl

/-- C6 (amended): the code returns the value itself when it is a
top-level array, else the first *truthy* of the `"data"` and
`"binning_data"` fields, else an empty array; and whenever the selected
container is not iterable the member contributes no records (via the
caught `for..of` failure).  In particular a truthy non-array `"data"`
field shadows an array `"binning_data"` field. -/
theorem selectContainer_amended (data : JVal) :
    (data.isArr = true → selectContainer data = data) ∧
    (data.isArr = false → (data.getField "data").truthy = true →
      selectContainer data = data.getField "data") ∧
    (data.isArr = false → (data.getField "data").truthy = false →
      (data.getField "binning_data").truthy = true →
      selectContainer data = data.getField "binning_data") ∧
    (data.isArr = false → (data.getField "data").truthy = false →
      (data.getField "binning_data").truthy = false →
      selectContainer data = .arr []) ∧
    ((selectContainer data).elems = none → pointsOf data = []) := by
  refine ⟨?_, ?_, ?_, ?_, ?_⟩
  · intro h
    cases data <;> simp [JVal.isArr] at h
    rfl
  · intro h h1
    cases data <;> simp [JVal.isArr] at h <;> simp [selectContainer, jsOr, h1]
  · intro h h1 h2
    cases data <;> simp [JVal.isArr] at h <;> simp [selectContainer, jsOr, h1, h2]
  · intro h h1 h2
    cases data <;> simp [JVal.isArr] at h <;> simp [selectContainer, jsOr, h1, h2]
  · intro h
    unfold pointsOf
    rw [h]

theorem selectContainer_amended_witness :
    selectContainer (.obj [("data", .num 7)]) = .num 7 :=
  (selectContainer_amended (.obj [("data", .num 7)])).2.1 rfl rfl

/-! ## C8: a malformed member is skipped, the rest survives -/

/-- C8: a member whose content fails to parse contributes no records,
and — as long as the qualifying-member count stays within the 500-file
cap — the whole extraction over an archive containing it equals the
extraction over the archive with that member removed: one malformed
member never aborts extraction and every well-formed member's samples
are still returned.  (The `console.warn` side effect is outside the
model.) -/
theorem parse_skips_malformed (pre post : List ZipEntry) (b : ZipEntry)
    (hb : b.content = none)
    (hlen : ((pre ++ b :: post).filter (fun e => qualifies e.name)).length ≤
      MAX_FILES_TO_PROCESS) :
    processEntry b = [] ∧
    parseSamsungHealthZip (pre ++ b :: post) = parseSamsungHealthZip (pre ++ post) := by
  have hpb : processEntry b = [] := by
    unfold processEntry
    rw [hb]
  refine ⟨hpb, ?_⟩
  unfold parseSamsungHealthZip
  rw [List.filter_append, List.filter_append, List.filter_cons]
  by_cases hq : qualifies b.name = true
  · simp only [hq, if_true]
    have hlen' : (pre.filter (fun e => qualifies e.name) ++
        b :: post.filter (fun e => qualifies e.name)).length ≤ MAX_FILES_TO_PROCESS := by
      rw [List.filter_append, List.filter_cons] at hlen
      simpa [hq] using hlen
    have hlen'' : (pre.filter (fun e => qualifies e.name) ++
        post.filter (fun e => qualifies e.name)).length ≤ MAX_FILES_TO_PROCESS := by
      simp only [List.length_append, List.length_cons] at hlen' ⊢
      omega
    rw [List.take_of_length_le hlen', List.take_of_length_le hlen'']
    rw [List.flatMap_append, List.flatMap_append, List.flatMap_cons, hpb]
    simp
  · simp only [Bool.not_eq_true] at hq
    simp [hq]

theorem parse_skips_malformed_witness :
    parseSamsungHealthZip
        [⟨"a/com.samsung.shealth.stress/x.binning_data.json",
          some (.arr [.obj [("score", .num 42), ("end_time", .num 1000)]])⟩,
         ⟨"a/com.samsung.shealth.stress/bad.binning_data.json", none⟩] =
      parseSamsungHealthZip
        [⟨"a/com.samsung.shealth.stress/x.binning_data.json",
          some (.arr [.obj [("score", .num 42), ("end_time", .num 1000)]])⟩] :=
  (parse_skips_malformed
      [⟨"a/com.samsung.shealth.stress/x.binning_data.json",
        some (.arr [.obj [("score", .num 42), ("end_time", .num 1000)]])⟩]
      []
      ⟨"a/com.samsung.shealth.stress/bad.binning_data.json", none⟩
      rfl (by decide)).2

/-! ## Sorting lemmas for `jsSort` -/

theorem mem_jsInsert (le : α → α → Bool) (a x : α) :
    ∀ l : List α, x ∈ jsInsert le a l ↔ x = a ∨ x ∈ l := by
  intro l
  induction l with
  | nil => simp [jsInsert]
  | cons b l ih =>
    unfold jsInsert
    by_cases h : le a b = true
    · simp [h]
    · simp only [Bool.not_eq_true] at h
      simp [h, ih]
      tauto

theorem mem_jsSort (le : α → α → Bool) (x : α) :
    ∀ l : List α, x ∈ jsSort le l ↔ x ∈ l := by
  intro l
  induction l with
  | nil => simp [jsSort]
  | cons a l ih =>
    unfold jsSort
    rw [mem_jsInsert, ih, List.mem_cons]

theorem jsInsert_pairwise (le : α → α → Bool) (a : α) :
    ∀ l : List α,
    List.Pairwise (fun x y => le x y = true) l →
    (∀ x ∈ l, le a x = true ∨ le x a = true) →
    (∀ x ∈ l, ∀ y ∈ l, le a x = true → le x y = true → le a y = true) →
    List.Pairwise (fun x y => le x y = true) (jsInsert le a l) := by
  intro l
  induction l with
  | nil =>
    intro _ _ _
    simp [jsInsert]
  | cons b l ih =>
    intro hpw htot htr
    rcases List.pairwise_cons.mp hpw with ⟨hb, hl⟩
    unfold jsInsert
    by_cases h : le a b = true
    · simp only [h, if_true]
      refine List.pairwise_cons.mpr ⟨?_, hpw⟩
      intro y hy
      rcases List.mem_cons.mp hy with rfl | hy'
      · exact h
      · exact htr b (List.mem_cons_self b l) y (List.mem_cons.mpr (Or.inr hy')) h (hb y hy')
    · simp only [Bool.not_eq_true] at h
      simp only [h, if_false]
      refine List.pairwise_cons.mpr ⟨?_, ?_⟩
      · intro y hy
        rcases (mem_jsInsert le a y l).mp hy with h1 | hy'
        · subst h1
          rcases htot b (List.mem_cons_self b l) with hc | hc
          · rw [hc] at h; cases h
          · exact hc
        · exact hb y hy'
      · exact ih hl
          (fun x hx => htot x (List.mem_cons.mpr (Or.inr hx)))
          (fun x hx y hy => htr x (List.mem_cons.mpr (Or.inr hx)) y (List.mem_cons.mpr (Or.inr hy)))

theorem jsSort_pairwise (le : α → α → Bool) :
    ∀ l : List α,
    (∀ x ∈ l, ∀ y ∈ l, le x y = true ∨ le y x = true) →
    (∀ x ∈ l, ∀ y ∈ l, ∀ z ∈ l, le x y = true → le y z = true → le x z = true) →
    List.Pairwise (fun x y => le x y = true) (jsSort le l) := by
  intro l
  induction l with
  | nil =>
    intro _ _
    simp [jsSort]
  | cons a l ih =>
    intro htot htr
    unfold jsSort
    have hmem : ∀ x ∈ jsSort le l, x ∈ a :: l := by
      intro x hx
      exact List.mem_cons.mpr (Or.inr ((mem_jsSort le x l).mp hx))
    refine jsInsert_pairwise le a (jsSort le l) ?_ ?_ ?_
    · exact ih
        (fun x hx y hy => htot x (List.mem_cons.mpr (Or.inr hx)) y (List.mem_cons.mpr (Or.inr hy)))
        (fun x hx y hy z hz => htr x (List.mem_cons.mpr (Or.inr hx)) y
          (List.mem_cons.mpr (Or.inr hy)) z (List.mem_cons.mpr (Or.inr hz)))
    · intro x hx
      exact htot a (List.mem_cons_self a l) x (hmem x hx)
    · intro x hx y hy hax hxy
      exact htr a (List.mem_cons_self a l) x (hmem x hx) y (hmem y hy) hax hxy

/-! ## C3: shape of the extractor's output -/

theorem tsLe_total (a b : Sample) : tsLe a b = true ∨ tsLe b a = true := by
  cases a with
  | mk ta va tya =>
    cases b with
    | mk tb vb tyb =>
      cases ta <;> cases tb <;> simp [tsLe] <;> omega

theorem tsLe_trans_num (a b c : Sample)
    (ha : a.timestamp.isNum = true) (hb : b.timestamp.isNum = true)
    (hc : c.timestamp.isNum = true)
    (h1 : tsLe a b = true) (h2 : tsLe b c = true) : tsLe a c = true := by
  cases a with
  | mk ta va tya =>
    cases b with
    | mk tb vb tyb =>
      cases c with
      | mk tc vc tyc =>
        cases ta <;> cases tb <;> cases tc <;>
          simp_all [tsLe, JVal.isNum] <;> omega

theorem mem_pointsOf_defined (s : Sample) (data : JVal) (hs : s ∈ pointsOf data) :
    s.timestamp.isUndefined = false ∧ s.value.isUndefined = false := by
  unfold pointsOf at hs
  cases helems : (selectContainer data).elems with
  | none => rw [helems] at hs; cases hs
  | some pts =>
    rw [helems] at hs
    rcases List.mem_filterMap.mp hs with ⟨point, _, hfp⟩
    dsimp only at hfp
    by_cases hcond : (!(point.getField "score").isUndefined && !(point.getField "end_time").isUndefined) = true
    · rw [if_pos hcond] at hfp
      simp only [Bool.and_eq_true, Bool.not_eq_true'] at hcond
      injection hfp with h
      subst h
      exact ⟨hcond.2, hcond.1⟩
    · rw [if_neg hcond] at hfp
      cases hfp

/-- C3 (amended): every sample in the extractor's output has a
*defined* (non-`undefined`) timestamp and value — a record missing
either field is dropped, but a present non-numeric field passes
through unvalidated — and whenever all output timestamps are numeric
the output is sorted non-decreasing by timestamp. -/
theorem parse_defined_sorted (zip : List ZipEntry) :
    (∀ s ∈ parseSamsungHealthZip zip,
      s.timestamp.isUndefined = false ∧ s.value.isUndefined = false) ∧
    ((∀ s ∈ parseSamsungHealthZip zip, s.timestamp.isNum = true) →
      List.Pairwise (fun a b => tsLe a b = true) (parseSamsungHealthZip zip)) := by
  constructor
  · intro s hs
    unfold parseSamsungHealthZip at hs
    have hs' := (mem_jsSort tsLe s _).mp hs
    rcases List.mem_flatMap.mp hs' with ⟨e, _, hse⟩
    unfold processEntry at hse
    cases hc : e.content with
    | none => rw [hc] at hse; cases hse
    | some data =>
      rw [hc] at hse
      exact mem_pointsOf_defined s data hse
  · intro hnum
    unfold parseSamsungHealthZip
    unfold parseSamsungHealthZip at hnum
    apply jsSort_pairwise
    · intro x _ y _
      exact tsLe_total x y
    · intro x hx y hy z hz h1 h2
      exact tsLe_trans_num x y z
        (hnum x ((mem_jsSort tsLe x _).mpr hx))
        (hnum y ((mem_jsSort tsLe y _).mpr hy))
        (hnum z ((mem_jsSort tsLe z _).mpr hz)) h1 h2

theorem parse_defined_sorted_witness :
    List.Pairwise (fun a b => tsLe a b = true)
      (parseSamsungHealthZip
        [⟨"a/com.samsung.shealth.stress/x.binning_data.json",
          some (.arr [.obj [("score", .num 42), ("end_time", .num 2000)],
                      .obj [("score", .num 55), ("end_time", .num 1000)]])⟩]) :=
  (parse_defined_sorted
      [⟨"a/com.samsung.shealth.stress/x.binning_data.json",
        some (.arr [.obj [("score", .num 42), ("end_time", .num 2000)],
                    .obj [("score", .num 55), ("end_time", .num 1000)]])⟩]).2
    (by decide)

/-- C3 (counterexample): a record with a present but non-numeric
`end_time` (`null`) is *kept*, not dropped — its `null !== undefined`
— so the extractor's output can contain a non-numeric timestamp,
refuting "a record carrying a non-numeric field is dropped". -/
theorem parse_nonNumeric_kept :
    parseSamsungHealthZip
        [⟨"a/com.samsung.shealth.stress/x.binning_data.json",
          some (.arr [.obj [("score", .num 85), ("end_time", .null)]])⟩] =
      [⟨.null, .num 85, "stress"⟩] ∧
    JVal.isNum .null = false :=
  And.intro rfl rfl

/-! ## C5: per-minute bucketing -/

/-- The value of the chronologically last stress sample of `l` falling
in minute `k` (the value C5 says a bucket must hold). -/
def lastStressVal (off : Int) (l : List HealthDataPoint) (k : Int) : Option Int :=
  ((l.filter (fun p => p.type == "stress" && minuteKey off p.timestamp == k)).getLast?).map
    (fun p => p.value)

theorem keys_setStress (key : Int) (v : Int) (m : List Bucket) :
    (setStress m key v).map Prod.fst = m.map Prod.fst := by
  unfold setStress
  rw [List.map_map]
  apply List.map_congr_left
  intro e _
  by_cases h : e.1 = key <;> simp [h]

theorem any_key_iff (m : List Bucket) (key : Int) :
    m.any (fun e => e.1 == key) = true ↔ key ∈ m.map Prod.fst := by
  simp [List.any_eq_true, List.mem_map]

theorem keys_addBucket (m : List Bucket) (key : Int) :
    (addBucket m key).map Prod.fst =
      if key ∈ m.map Prod.fst then m.map Prod.fst else m.map Prod.fst ++ [key] := by
  unfold addBucket
  by_cases h : m.any (fun e => e.1 == key) = true
  · rw [if_pos h, if_pos ((any_key_iff m key).mp h)]
  · have h' : key ∉ m.map Prod.fst := fun hc => h ((any_key_iff m key).mpr hc)
    rw [if_neg h, if_neg h']
    simp

theorem mem_addBucket_cases (m : List Bucket) (key : Int) (kv : Bucket)
    (h : kv ∈ addBucket m key) :
    kv ∈ m ∨ (kv = (key, none) ∧ key ∉ m.map Prod.fst) := by
  unfold addBucket at h
  by_cases hany : m.any (fun e => e.1 == key) = true
  · rw [if_pos hany] at h
    exact Or.inl h
  · rw [if_neg hany] at h
    rcases List.mem_append.mp h with h1 | h1
    · exact Or.inl h1
    · refine Or.inr ⟨List.mem_singleton.mp h1, fun hc => hany ((any_key_iff m key).mpr hc)⟩

theorem mem_setStress_cases (m : List Bucket) (key : Int) (v : Int) (kv : Bucket)
    (h : kv ∈ setStress m key v) :
    (kv.1 = key ∧ kv.2 = some v) ∨ (kv.1 ≠ key ∧ kv ∈ m) := by
  unfold setStress at h
  rcases List.mem_map.mp h with ⟨e, he, hfe⟩
  by_cases hk : (e.1 == key) = true
  · rw [if_pos hk] at hfe
    subst hfe
    exact Or.inl ⟨beq_iff_eq.mp hk, rfl⟩
  · rw [if_neg hk] at hfe
    subst hfe
    exact Or.inr ⟨fun hc => hk (beq_iff_eq.mpr hc), he⟩

theorem key_mem_setStress (m : List Bucket) (key : Int) (v : Int)
    (hmem : key ∈ m.map Prod.fst) :
    (key, some v) ∈ setStress m key v := by
  rcases List.mem_map.mp hmem with ⟨e, he, hfe⟩
  unfold setStress
  refine List.mem_map.mpr ⟨e, he, ?_⟩
  rw [if_pos (beq_iff_eq.mpr hfe), hfe]

theorem lastStressVal_append (off : Int) (l : List HealthDataPoint) (p : HealthDataPoint)
    (k : Int) :
    lastStressVal off (l ++ [p]) k =
      if (p.type == "stress" && (minuteKey off p.timestamp == k)) = true then some p.value
      else lastStressVal off l k := by
  unfold lastStressVal
  rw [List.filter_append]
  by_cases h : (p.type == "stress" && (minuteKey off p.timestamp == k)) = true
  · simp [h]
  · simp [List.filter_cons, h]

theorem lastStressVal_eq_none (off : Int) (l : List HealthDataPoint) (k : Int)
    (h : ∀ p ∈ l, minuteKey off p.timestamp ≠ k) :
    lastStressVal off l k = none := by
  unfold lastStressVal
  have : l.filter (fun p => p.type == "stress" && minuteKey off p.timestamp == k) = [] := by
    apply List.filter_eq_nil_iff.mpr
    intro p hp
    intro hc
    simp only [Bool.and_eq_true] at hc
    exact h p hp (beq_iff_eq.mp hc.2)
  rw [this]
  rfl

theorem buildBuckets_append (off : Int) (l : List HealthDataPoint) (p : HealthDataPoint) :
    buildBuckets off (l ++ [p]) = stepBucket off (buildBuckets off l) p := by
  unfold buildBuckets
  rw [List.foldl_append]
  rfl

theorem stepBucket_stress (off : Int) (m : List Bucket) (p : HealthDataPoint)
    (h : (p.type == "stress") = true) :
    stepBucket off m p =
      setStress (addBucket m (minuteKey off p.timestamp)) (minuteKey off p.timestamp) p.value := by
  simp [stepBucket, h]

theorem stepBucket_nonstress (off : Int) (m : List Bucket) (p : HealthDataPoint)
    (h : (p.type == "stress") = false) :
    stepBucket off m p = addBucket m (minuteKey off p.timestamp) := by
  simp [stepBucket, h]

theorem addBucket_nodup_keys (m : List Bucket) (key : Int)
    (h : (m.map Prod.fst).Nodup) : ((addBucket m key).map Prod.fst).Nodup := by
  rw [keys_addBucket]
  by_cases hmem : key ∈ m.map Prod.fst
  · rw [if_pos hmem]; exact h
  · rw [if_neg hmem]
    rw [List.nodup_append]
    exact ⟨h, List.nodup_singleton key, by simpa using hmem⟩

theorem mem_keys_addBucket (m : List Bucket) (key k : Int) :
    k ∈ (addBucket m key).map Prod.fst ↔ k ∈ m.map Prod.fst ∨ k = key := by
  rw [keys_addBucket]
  by_cases hmem : key ∈ m.map Prod.fst
  · rw [if_pos hmem]
    constructor
    · exact Or.inl
    · rintro (h | rfl)
      · exact h
      · exact hmem
  · rw [if_neg hmem]
    simp

theorem buildBuckets_inv (off : Int) (l : List HealthDataPoint) :
    ((buildBuckets off l).map Prod.fst).Nodup ∧
    (∀ k : Int, k ∈ (buildBuckets off l).map Prod.fst ↔
      ∃ p ∈ l, minuteKey off p.timestamp = k) ∧
    (∀ kv ∈ buildBuckets off l, kv.2 = lastStressVal off l kv.1) := by
  induction l using List.reverseRecOn with
  | nil => refine ⟨?_, ?_, ?_⟩ <;> simp [buildBuckets]
  | append_singleton l p ih =>
    obtain ⟨ihnd, ihkeys, ihval⟩ := ih
    rw [buildBuckets_append]
    by_cases hstress : (p.type == "stress") = true
    · rw [stepBucket_stress off _ p hstress]
      refine ⟨?_, ?_, ?_⟩
      · rw [keys_setStress]
        exact addBucket_nodup_keys _ _ ihnd
      · intro k
        rw [keys_setStress, mem_keys_addBucket, ihkeys]
        constructor
        · rintro (⟨q, hq, hqk⟩ | rfl)
          · exact ⟨q, List.mem_append.mpr (Or.inl hq), hqk⟩
          · exact ⟨p, List.mem_append.mpr (Or.inr (List.mem_singleton.mpr rfl)), rfl⟩
        · rintro ⟨q, hq, hqk⟩
          rcases List.mem_append.mp hq with hq' | hq'
          · exact Or.inl ⟨q, hq', hqk⟩
          · rw [List.mem_singleton.mp hq'] at hqk
            exact Or.inr hqk.symm
      · intro kv hkv
        rcases mem_setStress_cases _ _ _ kv hkv with ⟨hk1, hk2⟩ | ⟨hk1, hk2⟩
        · have hpred : (p.type == "stress" && (minuteKey off p.timestamp == kv.1)) = true := by
            rw [Bool.and_eq_true]
            exact ⟨hstress, beq_iff_eq.mpr hk1.symm⟩
          rw [hk2, lastStressVal_append, if_pos hpred]
        · rcases mem_addBucket_cases _ _ kv hk2 with hk3 | ⟨hk3, _⟩
          · rw [lastStressVal_append, if_neg]
            · exact ihval kv hk3
            · rw [Bool.and_eq_true]
              rintro ⟨_, hc⟩
              exact hk1 (beq_iff_eq.mp hc).symm
          · rw [hk3] at hk1
            exact absurd rfl hk1
    · have hstress' : (p.type == "stress") = false := by
        simpa using hstress
      rw [stepBucket_nonstress off _ p hstress']
      refine ⟨?_, ?_, ?_⟩
      · exact addBucket_nodup_keys _ _ ihnd
      · intro k
        rw [mem_keys_addBucket, ihkeys]
        constructor
        · rintro (⟨q, hq, hqk⟩ | rfl)
          · exact ⟨q, List.mem_append.mpr (Or.inl hq), hqk⟩
          · exact ⟨p, List.mem_append.mpr (Or.inr (List.mem_singleton.mpr rfl)), rfl⟩
        · rintro ⟨q, hq, hqk⟩
          rcases List.mem_append.mp hq with hq' | hq'
          · exact Or.inl ⟨q, hq', hqk⟩
          · rw [List.mem_singleton.mp hq'] at hqk
            exact Or.inr hqk.symm
      · intro kv hkv
        rcases mem_addBucket_cases _ _ kv hkv with hk3 | ⟨hk3, hk4⟩
        · rw [lastStressVal_append, if_neg]
          · exact ihval kv hk3
          · rw [Bool.and_eq_true]
            rintro ⟨hc, _⟩
            rw [hstress'] at hc
            cases hc
        · rw [hk3]
          rw [lastStressVal_append, if_neg]
          · symm
            apply lastStressVal_eq_none
            intro q hq hc
            exact hk4 ((ihkeys (minuteKey off p.timestamp)).mpr ⟨q, hq, hc⟩)
          · rw [Bool.and_eq_true]
            rintro ⟨hc, _⟩
            rw [hstress'] at hc
            cases hc

theorem jsInsert_perm (le : α → α → Bool) (a : α) :
    ∀ l : List α, List.Perm (jsInsert le a l) (a :: l) := by
  intro l
  induction l with
  | nil => exact List.Perm.refl _
  | cons b l ih =>
    unfold jsInsert
    by_cases h : le a b = true
    · rw [if_pos h]
    · rw [if_neg h]
      exact List.Perm.trans (ih.cons b) (List.Perm.swap a b l)

theorem jsSort_perm (le : α → α → Bool) :
    ∀ l : List α, List.Perm (jsSort le l) l := by
  intro l
  induction l with
  | nil => exact List.Perm.refl _
  | cons a l ih =>
    exact List.Perm.trans (jsInsert_perm le a (jsSort le l)) (ih.cons a)

/-- C5: chart bucketing is a pure function of the windowed sample list
(so re-derivation from the same inputs is unchanged); the bucket keys
are exactly the distinct local minutes present among the windowed
samples, with no duplicate keys; each bucket's stress value is that of
the chronologically last stress sample falling in its minute
(last-write-wins, `none` when the minute holds no stress-typed
sample); the buckets are sorted ascending by underlying minute
timestamp; and the displayed series is exactly those sorted buckets
after the lossy label conversion. -/
theorem chartData_lastWriteWins (off : Int) (healthData : List HealthDataPoint)
    (tr : TimeRange) :
    ((chartBuckets off healthData tr).map Prod.fst).Nodup ∧
    (∀ k : Int, k ∈ (chartBuckets off healthData tr).map Prod.fst ↔
      ∃ p ∈ filteredHealthData healthData tr, minuteKey off p.timestamp = k) ∧
    (∀ kv ∈ chartBuckets off healthData tr,
      kv.2 = lastStressVal off (filteredHealthData healthData tr) kv.1) ∧
    List.Pairwise (fun a b => a.1 ≤ b.1) (chartBuckets off healthData tr) ∧
    chartData off healthData tr =
      (chartBuckets off healthData tr).map (fun e => (e.1 % 1440, e.2)) ∧
    (∀ (healthData2 : List HealthDataPoint) (tr2 : TimeRange),
      filteredHealthData healthData2 tr2 = filteredHealthData healthData tr →
      chartData off healthData2 tr2 = chartData off healthData tr) := by
  obtain ⟨hnd, hkeys, hval⟩ := buildBuckets_inv off (filteredHealthData healthData tr)
  have hperm : List.Perm (chartBuckets off healthData tr)
      (buildBuckets off (filteredHealthData healthData tr)) :=
    jsSort_perm _ _
  have hpermmap := hperm.map Prod.fst
  refine ⟨?_, ?_, ?_, ?_, rfl, ?_⟩
  · exact (List.Perm.nodup_iff hpermmap).mpr hnd
  · intro k
    rw [hpermmap.mem_iff]
    exact hkeys k
  · intro kv hkv
    exact hval kv ((mem_jsSort _ kv _).mp hkv)
  · have hpw := jsSort_pairwise (fun a b : Bucket => decide (a.1 ≤ b.1))
      (buildBuckets off (filteredHealthData healthData tr))
      (fun x _ y _ => by
        rcases Int.le_total x.1 y.1 with h | h
        · exact Or.inl (decide_eq_true h)
        · exact Or.inr (decide_eq_true h))
      (fun x _ y _ z _ h1 h2 =>
        decide_eq_true (Int.le_trans (of_decide_eq_true h1) (of_decide_eq_true h2)))
    exact hpw.imp (fun h => of_decide_eq_true h)
  · intro healthData2 tr2 heq
    unfold chartData chartBuckets
    rw [heq]

theorem chartData_lastWriteWins_witness :
    ((0 : Int), some (70 : Int)).2 =
      lastStressVal 0
        (filteredHealthData [⟨0, 10, "stress"⟩, ⟨30000, 70, "stress"⟩] ⟨0, 0⟩) (0, some 70).1 :=
  (chartData_lastWriteWins 0 [⟨0, 10, "stress"⟩, ⟨30000, 70, "stress"⟩] ⟨0, 0⟩).2.2.1
    (0, some 70) (by decide)
